import Mathlib

/-!
Verification of the cc-standup CLI core (`src/cli.mjs`): the proof-log
parser, the per-project aggregation, the minutes-descending stable sort
and the three output formatters (plain, slack, tweet).

Strings are modelled as `List Char`; each JavaScript regular expression
of the source is embedded as an explicit matching function returning the
captured groups, and each pipeline stage is a pure Lean function.
-/

namespace CcStandup

/-- The character class removed by JavaScript `String.prototype.trim`:
ECMAScript WhiteSpace (TAB, VT, FF, SP, NBSP, ZWNBSP and the Unicode
space separators) together with the LineTerminator characters. -/
def jsWhitespaceChars : List Char :=
  [' ', '\t', '\u000B', '\u000C', ' ', '﻿',
   ' ', ' ', ' ', ' ', ' ', ' ', ' ',
   ' ', ' ', ' ', ' ', ' ', ' ', ' ',
   '　', '\n', '\r', ' ', ' ']

/-- `true` on the characters trimmed by JavaScript `trim()`. -/
def jsWhitespace (c : Char) : Bool := jsWhitespaceChars.contains c

/-- `line.trim()` on a character list: drop leading and trailing
JavaScript whitespace. -/
def jsTrim (cs : List Char) : List Char :=
  ((cs.dropWhile jsWhitespace).reverse.dropWhile jsWhitespace).reverse

/-- ECMAScript LineTerminator characters, which `.` does not match in a
regular expression without the `s` flag. -/
def lineTerminator (c : Char) : Bool :=
  c = '\n' || c = '\r' || c = ' ' || c = ' '

/-- The regex class `\d` (ASCII digits only, the `u` flag is absent). -/
def isAsciiDigit (c : Char) : Bool := '0' ≤ c && c ≤ '9'

/-- Numeric value of an ASCII digit. -/
def digitVal (c : Char) : Nat := c.toNat - '0'.toNat

/-- Shorthand turning a string literal into the character-list model. -/
def str (s : String) : List Char := s.toList

/-- Match a literal character sequence at the head of the input and
return the remainder (a literal run inside a regex). -/
def dropLit : List Char → List Char → Option (List Char)
  | [], cs => some cs
  | _ :: _, [] => none
  | p :: ps, c :: cs => if c = p then dropLit ps cs else none

/-- `\d{n}`: exactly `n` digits, returning them and the remainder. -/
def takeDigitsN : Nat → List Char → Option (List Char × List Char)
  | 0, cs => some ([], cs)
  | _ + 1, [] => none
  | n + 1, c :: cs =>
    if isAsciiDigit c then
      match takeDigitsN n cs with
      | some (ds, r) => some (c :: ds, r)
      | none => none
    else none

/-- Consume a (possibly empty) run of digits, accumulating the decimal
value as JavaScript `parseInt(…, 10)` would on the captured digits. -/
def takeDigitsRun : List Char → Nat → Nat × List Char
  | c :: cs, acc =>
    if isAsciiDigit c then takeDigitsRun cs (10 * acc + digitVal c) else (acc, c :: cs)
  | [], acc => ([], acc).swap

/-- `(\d+)` followed by a non-digit literal: the capture is the maximal
non-empty digit run, returned as its numeric value. -/
def takeDigits1 : List Char → Option (Nat × List Char)
  | c :: cs => if isAsciiDigit c then some (takeDigitsRun cs (digitVal c)) else none
  | [] => none

/-- The clock sub-pattern `\d{2}:\d{2}` of the session header. -/
def headerClock (cs : List Char) : Option (List Char) := do
  let (_, r) ← takeDigitsN 2 cs
  let r ← dropLit (str ":") r
  let (_, r) ← takeDigitsN 2 r
  pure r

/-- `SESSION_HEADER = /^### (\d{4}-\d{2}-\d{2}) (\d{2}:\d{2})-(\d{2}:\d{2}) JST/`;
returns capture group 1 (the date). -/
def sessionHeader (cs : List Char) : Option (List Char) := do
  let r ← dropLit (str "### ") cs
  let (y, r) ← takeDigitsN 4 r
  let r ← dropLit (str "-") r
  let (mo, r) ← takeDigitsN 2 r
  let r ← dropLit (str "-") r
  let (d, r) ← takeDigitsN 2 r
  let r ← dropLit (str " ") r
  let r ← headerClock r
  let r ← dropLit (str "-") r
  let r ← headerClock r
  let _ ← dropLit (str " JST") r
  pure (y ++ '-' :: mo ++ '-' :: d)

/-- `WHERE_LINE = /^- どこで: (.+)$/`; returns capture group 1, which must
be non-empty, reach the end of the line and contain no line terminator. -/
def whereLine (cs : List Char) : Option (List Char) := do
  let rest ← dropLit (str "- どこで: ") cs
  if !rest.isEmpty && rest.all (fun c => !lineTerminator c) then pure rest else none

/-- `WHO_LINE = /^- 誰が: CC: (\d+)件/`; returns the action count. -/
def whoLine (cs : List Char) : Option Nat := do
  let r ← dropLit (str "- 誰が: CC: ") cs
  let (n, r) ← takeDigits1 r
  let _ ← dropLit (str "件") r
  pure n

/-- `WHAT_LINE`: the pattern `^- 何を: (\d+)ファイル変更` followed by a
parenthesised `+(\d+)` slash `-(\d+)` diff-stat pair; returns
(filesChanged, linesAdded, linesRemoved). -/
def whatLine (cs : List Char) : Option (Nat × Nat × Nat) := do
  let r ← dropLit (str "- 何を: ") cs
  let (files, r) ← takeDigits1 r
  let r ← dropLit (str "ファイル変更 (+") r
  let (added, r) ← takeDigits1 r
  let r ← dropLit (str "/-") r
  let (removed, r) ← takeDigits1 r
  let _ ← dropLit (str ")") r
  pure (files, added, removed)

/-- Match `JST（(\d+)分）` at the head of the input. -/
def jstMinutes (cs : List Char) : Option Nat := do
  let r ← dropLit (str "JST（") cs
  let (n, r) ← takeDigits1 r
  let _ ← dropLit (str "分）") r
  pure n

/-- Backtracking of the greedy `.+` in `DURATION_LINE`: scan left to
right, never crossing a line terminator, and keep the value of the
rightmost position where `JST（(\d+)分）` matches after at least one
consumed character. -/
def durScan : List Char → Option Nat → Option Nat
  | [], acc => acc
  | c :: rest, acc =>
    if lineTerminator c then acc
    else durScan rest (match jstMinutes rest with | some n => some n | none => acc)

/-- `DURATION_LINE = /^- いつ: .+JST（(\d+)分）/`; returns the minute count. -/
def durationLine (cs : List Char) : Option Nat := do
  let r ← dropLit (str "- いつ: ") cs
  durScan r none

/-- One parsed proof-log session (the object literal built for each
header line in `parseProofLog`). -/
structure Session where
  date : List Char
  durationMin : Nat
  project : Option (List Char)
  ccActions : Nat
  filesChanged : Nat
  linesAdded : Nat
  linesRemoved : Nat
deriving DecidableEq, Repr

/-- The fresh session created when a header matches: all numeric fields
zero, project `null`. -/
def newSession (date : List Char) : Session :=
  { date := date, durationMin := 0, project := none, ccActions := 0,
    filesChanged := 0, linesAdded := 0, linesRemoved := 0 }

/-- The chain of field matchers applied to a trimmed line inside an open
session block (the four `if (…Match) { …; continue; }` statements). -/
def fieldStep (s : Session) (line : List Char) : Session :=
  match durationLine line with
  | some n => { s with durationMin := n }
  | none =>
  match whereLine line with
  | some p => { s with project := some (jsTrim p) }
  | none =>
  match whoLine line with
  | some n => { s with ccActions := n }
  | none =>
  match whatLine line with
  | some (f, a, r) => { s with filesChanged := f, linesAdded := a, linesRemoved := r }
  | none => s

/-- The body of the `for (const raw of content.split('\n'))` loop of
`parseProofLog`, with the open session (`current`) as explicit state;
the trailing `if (current) sessions.push(current)` is the `[]` case. -/
def parseAux : Option Session → List (List Char) → List Session
  | cur, [] => cur.toList
  | cur, raw :: rest =>
    match sessionHeader (jsTrim raw), cur with
    | some d, some s => s :: parseAux (some (newSession d)) rest
    | some d, none => parseAux (some (newSession d)) rest
    | none, some s => parseAux (some (fieldStep s (jsTrim raw))) rest
    | none, none => parseAux none rest

/-- `parseProofLog` on an already split line list. -/
def parseLines (lines : List (List Char)) : List Session := parseAux none lines

/-- `parseProofLog(content)`: split on `'\n'` and run the line loop. -/
def parseProofLog (content : String) : List Session :=
  parseLines ((content.splitOn "\n").map String.toList)

/-- One `byProject` bucket (`{ minutes: 0, sessions: 0, linesAdded: 0, files: 0 }`). -/
structure ProjAgg where
  minutes : Nat
  sessions : Nat
  linesAdded : Nat
  files : Nat
deriving DecidableEq, Repr

/-- The aggregation loop's accumulator: the insertion-ordered `byProject`
map and the five `total…` counters. -/
structure AggState where
  byProject : List (List Char × ProjAgg)
  totalMinutes : Nat
  totalSessions : Nat
  totalLines : Nat
  totalFiles : Nat
  totalActions : Nat
deriving DecidableEq, Repr

/-- Initial accumulator (`byProject = {}`, all totals `0`). -/
def emptyAgg : AggState :=
  { byProject := [], totalMinutes := 0, totalSessions := 0, totalLines := 0,
    totalFiles := 0, totalActions := 0 }

/-- `if (!s.project) continue`: a session is retained when its project is
neither `null` nor the empty string (both are falsy). -/
def retainedB (s : Session) : Bool :=
  match s.project with
  | none => false
  | some p => !p.isEmpty

/-- The project key of a retained session. -/
def projKey (s : Session) : List Char := s.project.getD []

/-- Add one session's numbers into a bucket (`byProject[k].… += …`). -/
def addSession (v : ProjAgg) (s : Session) : ProjAgg :=
  { minutes := v.minutes + s.durationMin, sessions := v.sessions + 1,
    linesAdded := v.linesAdded + s.linesAdded, files := v.files + s.filesChanged }

/-- Update the bucket for key `k`, creating it at the end of the map when
absent (JavaScript object insertion order). -/
def bumpProject : List (List Char × ProjAgg) → List Char → Session → List (List Char × ProjAgg)
  | [], k, s => [(k, addSession ⟨0, 0, 0, 0⟩ s)]
  | (k', v) :: t, k, s =>
    if k' = k then (k', addSession v s) :: t else (k', v) :: bumpProject t k s

/-- One iteration of `for (const s of sessions)`. -/
def aggStep (a : AggState) (s : Session) : AggState :=
  if retainedB s then
    { byProject := bumpProject a.byProject (projKey s) s,
      totalMinutes := a.totalMinutes + s.durationMin,
      totalSessions := a.totalSessions + 1,
      totalLines := a.totalLines + s.linesAdded,
      totalFiles := a.totalFiles + s.filesChanged,
      totalActions := a.totalActions + s.ccActions }
  else a

/-- The whole aggregation loop. -/
def aggregateSessions (ss : List Session) : AggState := ss.foldl aggStep emptyAgg

/-- The condition of the input file: absent (`existsSync` false), present
but unreadable (`readFileSync` throws), or readable with some content. -/
inductive FileState where
  | missing
  | unreadable
  | readable (content : String)
deriving DecidableEq

/-- `isGhostDay = !existsSync(filePath)`. -/
def isGhostDayOf : FileState → Bool
  | .missing => true
  | _ => false

/-- The sessions the aggregation loop sees: none when the file is missing
(the loop is skipped) or unreadable (`readFileSync` throws before the
loop), otherwise the parse of the content. -/
def sessionsOf : FileState → List Session
  | .readable c => parseProofLog c
  | _ => []

/-- Aggregates produced by the load-and-aggregate section for each file
state. -/
def runAggregate (fs : FileState) : AggState := aggregateSessions (sessionsOf fs)

/-- Everything the formatters read: the requested date, the weekday
label computed from it, the ghost-day flag and the aggregates. -/
structure Report where
  targetDate : List Char
  dow : List Char
  isGhostDay : Bool
  agg : AggState

/-- The whole pipeline up to (but excluding) formatting. -/
def buildReport (targetDate dow : List Char) (fs : FileState) : Report :=
  { targetDate := targetDate, dow := dow, isGhostDay := isGhostDayOf fs,
    agg := runAggregate fs }

/-- The comparator `(a, b) => b[1].minutes - a[1].minutes` as the
non-strict order a stable sort realises: `a` may precede `b` iff
`b`'s minutes do not exceed `a`'s. -/
def minutesDesc (a b : List Char × ProjAgg) : Prop := b.2.minutes ≤ a.2.minutes

instance : DecidableRel minutesDesc := fun _ _ => inferInstanceAs (Decidable (_ ≤ _))

instance : IsTotal (List Char × ProjAgg) minutesDesc :=
  ⟨fun a b => Nat.le_total b.2.minutes a.2.minutes⟩

instance : IsTrans (List Char × ProjAgg) minutesDesc :=
  ⟨fun _ _ _ h h' => Nat.le_trans h' h⟩

/-- An ECMAScript array-index key: the canonical decimal representation
(digits only, no leading zero except `"0"` itself) of an integer below
`2^32 - 1`; its numeric value when so. -/
def arrayIndex? (k : List Char) : Option Nat :=
  match k with
  | [] => none
  | c :: cs =>
    if (c :: cs).all isAsciiDigit then
      if c = '0' ∧ cs ≠ [] then none
      else
        let n := (c :: cs).foldl (fun acc d => 10 * acc + digitVal d) 0
        if n < 4294967295 then some n else none
    else none

/-- Ascending order on the numeric value of array-index keys. -/
def idxLe (a b : List Char × ProjAgg) : Prop :=
  (arrayIndex? a.1).getD 0 ≤ (arrayIndex? b.1).getD 0

instance : DecidableRel idxLe := fun _ _ => inferInstanceAs (Decidable (_ ≤ _))

instance : IsTotal (List Char × ProjAgg) idxLe :=
  ⟨fun _ _ => Nat.le_total _ _⟩

instance : IsTrans (List Char × ProjAgg) idxLe :=
  ⟨fun _ _ _ h h' => Nat.le_trans h h'⟩

/-- `Object.entries(byProject)`: ECMAScript `[[OwnPropertyKeys]]` lists
array-index keys first, in ascending numeric order, then the remaining
string keys in insertion (first-creation) order. -/
def jsEntries (l : List (List Char × ProjAgg)) : List (List Char × ProjAgg) :=
  List.insertionSort idxLe (l.filter fun e => (arrayIndex? e.1).isSome)
    ++ l.filter fun e => !(arrayIndex? e.1).isSome

/-- `Object.entries(byProject).sort(…)`: ECMAScript `Array.prototype.sort`
is stable, so it is the stable sort of the enumerated entry list by
minutes descending. -/
def sortEntries (l : List (List Char × ProjAgg)) : List (List Char × ProjAgg) :=
  List.insertionSort minutesDesc (jsEntries l)

/-- `sortedProjects` of a report. -/
def sortedProjects (r : Report) : List (List Char × ProjAgg) :=
  sortEntries r.agg.byProject

/-- `label = `${targetDate} (${dow})``. -/
def label (r : Report) : List Char :=
  r.targetDate ++ str " (" ++ r.dow ++ str ")"

/-- `fmtHours(min)`: `Xh Ym`, or `Ym` under one hour. -/
def fmtHours (min : Nat) : List Char :=
  let h := min / 60
  let m := min % 60
  if h > 0 then Nat.toDigits 10 h ++ 'h' :: ' ' :: Nat.toDigits 10 m ++ ['m']
  else Nat.toDigits 10 m ++ ['m']

/-- Insert a comma after every third digit of a reversed digit list. -/
def group3 : List Char → List Char
  | a :: b :: c :: d :: rest => a :: b :: c :: ',' :: group3 (d :: rest)
  | l => l

/-- `n.toLocaleString()` for a natural number under the en-US grouping
the spec describes: decimal digits with thousands separators. -/
def toLocaleString (n : Nat) : List Char :=
  (group3 (Nat.toDigits 10 n).reverse).reverse

/-- `(n / 1000).toFixed(1)`, modelled as exact half-up rounding of
`n / 1000` to one decimal place. This idealizes IEEE-754 `toFixed`,
which can differ in the final digit at ties (for `n = 150` the double
nearest `0.15` lies below it, so the program prints `0.1` while this
model gives `0.2`); no statement in this file depends on the rendered
digits, only on the shape and length of the surrounding text. -/
def toFixed1 (n : Nat) : List Char :=
  let t := (n + 50) / 100
  Nat.toDigits 10 (t / 10) ++ '.' :: Nat.toDigits 10 (t % 10)

/-- The fixed plain-format ghost-day line. -/
def ghostPlainLine : List Char :=
  str "👻 Ghost Day — AI worked autonomously. No sessions logged."

/-- The fixed plain-format footer. -/
def footerLine : List Char := str "Generated by cc-standup"

/-- One plain-format project bullet. -/
def plainBullet (e : List Char × ProjAgg) : List Char :=
  let parts : List (List Char) :=
    [fmtHours e.2.minutes]
    ++ (if e.2.sessions > 0 then [Nat.toDigits 10 e.2.sessions ++ str " sessions"] else [])
    ++ (if e.2.linesAdded > 0 then ['+' :: toLocaleString e.2.linesAdded ++ str " lines"] else [])
  str "  • " ++ e.1 ++ str " — " ++ List.intercalate (str " | ") parts

/-- The plain-format totals line. -/
def plainTotalLine (a : AggState) : List Char :=
  let totalParts : List (List Char) :=
    [fmtHours a.totalMinutes,
     Nat.toDigits 10 a.totalSessions ++ str " sessions",
     '+' :: toLocaleString a.totalLines ++ str " lines"]
    ++ (if a.totalFiles > 0 then [Nat.toDigits 10 a.totalFiles ++ str " files"] else [])
  str "📊 Total: " ++ List.intercalate (str " | ") totalParts

/-- The plain-format continuing line. -/
def continuingLine (sorted : List (List Char × ProjAgg)) : List Char :=
  str "🔜 Continuing: " ++ List.intercalate (str ", ") (sorted.map (·.1))

/-- The plain-format lines pushed before the continuing/footer block:
the title, then either the ghost notice or the per-project body. -/
def plainHeadLines (r : Report) : List (List Char) :=
  [str "📋 AI Standup — " ++ label r, []]
  ++ (if r.isGhostDay || r.agg.totalSessions == 0 then
        [ghostPlainLine, []]
      else
        [str "✅ Yesterday's work:"]
        ++ (sortedProjects r).map plainBullet
        ++ [[], plainTotalLine r.agg, []])

/-- `formatPlain()` as the list of pushed lines. -/
def formatPlainLines (r : Report) : List (List Char) :=
  plainHeadLines r
  ++ (if (sortedProjects r).length > 0 then [continuingLine (sortedProjects r), []] else [])
  ++ [footerLine]

/-- `formatPlain()`: the pushed lines joined with newlines. -/
def formatPlain (r : Report) : List Char :=
  List.intercalate ['\n'] (formatPlainLines r)

/-- The fixed slack-format ghost-day line. -/
def ghostSlackLine : List Char :=
  str "👻 *Ghost Day* — AI worked autonomously. No sessions logged."

/-- One slack-format project bullet. -/
def slackBullet (e : List Char × ProjAgg) : List Char :=
  let parts : List (List Char) :=
    [fmtHours e.2.minutes]
    ++ (if e.2.linesAdded > 0 then ['+' :: toLocaleString e.2.linesAdded ++ str " lines"] else [])
  str "• `" ++ e.1 ++ str "` — " ++ List.intercalate (str ", ") parts

/-- The slack-format totals line. -/
def slackTotalLine (a : AggState) : List Char :=
  str "📊 *Total:* " ++ fmtHours a.totalMinutes ++ str " | "
    ++ Nat.toDigits 10 a.totalSessions ++ str " sessions | +"
    ++ toLocaleString a.totalLines ++ str " lines"

/-- The slack-format continuing line. -/
def slackContinuingLine (sorted : List (List Char × ProjAgg)) : List Char :=
  str "🔜 *Continuing:* "
    ++ List.intercalate (str ", ") (sorted.map (fun e => '`' :: e.1 ++ ['`']))

/-- `formatSlack()` as the list of pushed lines. -/
def formatSlackLines (r : Report) : List (List Char) :=
  let sorted := sortedProjects r
  [str "*AI Standup — " ++ label r ++ str "*", []]
  ++ (if r.isGhostDay || r.agg.totalSessions == 0 then
        [ghostSlackLine]
      else
        [str "✅ *Yesterday's work:*"]
        ++ sorted.map slackBullet
        ++ [[], slackTotalLine r.agg]
        ++ (if sorted.length > 0 then [slackContinuingLine sorted] else []))

/-- `formatSlack()`: the pushed lines joined with newlines. -/
def formatSlack (r : Report) : List Char :=
  List.intercalate ['\n'] (formatSlackLines r)

/-- One tweet project line, with the conditional `+…K lines` suffix the
code appends to the part just pushed. -/
def tweetProjLine (e : List Char × ProjAgg) : List Char :=
  str "✅ " ++ e.1 ++ str ": " ++ fmtHours e.2.minutes
    ++ (if e.2.linesAdded > 0 then str " (+" ++ toFixed1 e.2.linesAdded ++ str "K lines)" else [])

/-- The fixed ghost-day tweet parts for a given `targetDate`. -/
def ghostTweetParts (targetDate : List Char) : List (List Char) :=
  [str "AI Standup " ++ targetDate.drop 5 ++ str " 👻",
   str "Ghost Day — AI ran autonomously",
   str "#claudecode"]

/-- `formatTweet()`'s `parts` array. -/
def tweetParts (r : Report) : List (List Char) :=
  if r.isGhostDay || r.agg.totalSessions == 0 then
    ghostTweetParts r.targetDate
  else
    (str "AI Standup " ++ r.targetDate.drop 5 ++ str " 🤖")
      :: ((sortedProjects r).take 3).map tweetProjLine
      ++ [[],
          str "Total: " ++ fmtHours r.agg.totalMinutes ++ str " | "
            ++ Nat.toDigits 10 r.agg.totalSessions ++ str " sessions",
          str "#claudecode #aidev"]

/-- `parts.join('\n')` before the length check. -/
def joinedTweet (r : Report) : List Char :=
  List.intercalate ['\n'] (tweetParts r)

/-- `formatTweet()`: truncate to 277 characters plus `'...'` when the
joined parts exceed 280 characters. -/
def formatTweet (r : Report) : List Char :=
  let tweet := joinedTweet r
  if tweet.length > 280 then tweet.take 277 ++ str "..." else tweet

/-- A line that opens a new session block. -/
def isHeader (l : List Char) : Bool := (sessionHeader (jsTrim l)).isSome

/-- The effect of a session block's body (its lines after the header, up
to the next header) on the open session: each line is trimmed and run
through the field-matcher chain. -/
def applyFields (s : Session) (body : List (List Char)) : Session :=
  body.foldl (fun s raw => fieldStep s (jsTrim raw)) s

/-- The duration value a raw line contributes, if any. -/
def durOf (l : List Char) : Option Nat := durationLine (jsTrim l)

/-- The project capture a raw line contributes, if any. -/
def whereOf (l : List Char) : Option (List Char) := whereLine (jsTrim l)

/-- The action count a raw line contributes, if any. -/
def whoOf (l : List Char) : Option Nat := whoLine (jsTrim l)

/-- The files/lines triple a raw line contributes, if any. -/
def whatOf (l : List Char) : Option (Nat × Nat × Nat) := whatLine (jsTrim l)

/-- A line matching none of the five recognized patterns. -/
def unrecognized (l : List Char) : Prop :=
  sessionHeader (jsTrim l) = none ∧ durationLine (jsTrim l) = none
    ∧ whereLine (jsTrim l) = none ∧ whoLine (jsTrim l) = none
    ∧ whatLine (jsTrim l) = none

instance (l : List Char) : Decidable (unrecognized l) :=
  inferInstanceAs (Decidable (_ ∧ _))

/-- A report with three long-named projects, used to exercise the tweet
truncation branch. -/
def longTweetReport : Report :=
  { targetDate := str "2026-02-27", dow := str "Fri", isGhostDay := false,
    agg :=
      { byProject :=
          [(str "project-alpha-with-an-exceedingly-long-and-descriptive-workspace-label-number-one", ⟨60, 1, 0, 0⟩),
           (str "project-beta-with-an-exceedingly-long-and-descriptive-workspace-label-number-two", ⟨45, 1, 0, 0⟩),
           (str "project-gamma-with-an-exceedingly-long-and-descriptive-workspace-label-number-three", ⟨30, 1, 0, 0⟩)],
        totalMinutes := 135, totalSessions := 3, totalLines := 0,
        totalFiles := 0, totalActions := 0 } }

/-- A report with one project, used as a concrete plain-format input. -/
def oneProjectReport : Report :=
  { targetDate := str "2026-02-27", dow := str "Fri", isGhostDay := false,
    agg :=
      { byProject := [(str "alpha", ⟨90, 1, 120, 3⟩)],
        totalMinutes := 90, totalSessions := 1, totalLines := 120,
        totalFiles := 3, totalActions := 7 } }

/-- A successful literal match means the input starts with the literal. -/
theorem dropLit_eq_append {ps cs r : List Char} (h : dropLit ps cs = some r) :
    cs = ps ++ r := by
  induction ps generalizing cs with
  | nil => simp [dropLit] at h; simp [h]
  | cons p ps ih =>
    cases cs with
    | nil => simp [dropLit] at h
    | cons c cs' =>
      by_cases hc : c = p
      · simp only [dropLit, if_pos hc] at h
        simp [hc, ih h]
      · simp [dropLit, hc] at h

/-- Inversion for the where-line matcher. -/
theorem whereLine_inv {cs p : List Char} (h : whereLine cs = some p) :
    cs = str "- どこで: " ++ p ∧ p ≠ [] := by
  unfold whereLine at h
  cases hd : dropLit (str "- どこで: ") cs with
  | none => rw [hd] at h; simp at h
  | some rest =>
    rw [hd] at h
    by_cases hc : !rest.isEmpty && rest.all (fun c => !lineTerminator c)
    · simp only [Option.bind_eq_bind, Option.some_bind, if_pos hc] at h
      cases h
      refine ⟨dropLit_eq_append hd, ?_⟩
      intro hnil
      rw [hnil] at hc
      simp at hc
    · simp only [Option.bind_eq_bind, Option.some_bind, if_neg hc] at h
      cases h

/-- Adding a session into the bucket map adds its minutes to the bucket
minutes total. -/
theorem bumpProject_minutes (l : List (List Char × ProjAgg)) (k : List Char) (s : Session) :
    ((bumpProject l k s).map fun e => e.2.minutes).sum
      = (l.map fun e => e.2.minutes).sum + s.durationMin := by
  induction l with
  | nil => simp [bumpProject, addSession]
  | cons e t ih =>
    obtain ⟨k', v⟩ := e
    by_cases hk : k' = k
    · simp only [bumpProject, if_pos hk, List.map_cons, List.sum_cons, addSession]
      omega
    · simp only [bumpProject, if_neg hk, List.map_cons, List.sum_cons, ih]
      omega

/-- Adding a session into the bucket map adds one to the bucket session
total. -/
theorem bumpProject_sessions (l : List (List Char × ProjAgg)) (k : List Char) (s : Session) :
    ((bumpProject l k s).map fun e => e.2.sessions).sum
      = (l.map fun e => e.2.sessions).sum + 1 := by
  induction l with
  | nil => simp [bumpProject, addSession]
  | cons e t ih =>
    obtain ⟨k', v⟩ := e
    by_cases hk : k' = k
    · simp only [bumpProject, if_pos hk, List.map_cons, List.sum_cons, addSession]
      omega
    · simp only [bumpProject, if_neg hk, List.map_cons, List.sum_cons, ih]
      omega

/-- Adding a session into the bucket map adds its added lines to the
bucket lines total. -/
theorem bumpProject_linesAdded (l : List (List Char × ProjAgg)) (k : List Char) (s : Session) :
    ((bumpProject l k s).map fun e => e.2.linesAdded).sum
      = (l.map fun e => e.2.linesAdded).sum + s.linesAdded := by
  induction l with
  | nil => simp [bumpProject, addSession]
  | cons e t ih =>
    obtain ⟨k', v⟩ := e
    by_cases hk : k' = k
    · simp only [bumpProject, if_pos hk, List.map_cons, List.sum_cons, addSession]
      omega
    · simp only [bumpProject, if_neg hk, List.map_cons, List.sum_cons, ih]
      omega

/-- Adding a session into the bucket map adds its changed files to the
bucket files total. -/
theorem bumpProject_files (l : List (List Char × ProjAgg)) (k : List Char) (s : Session) :
    ((bumpProject l k s).map fun e => e.2.files).sum
      = (l.map fun e => e.2.files).sum + s.filesChanged := by
  induction l with
  | nil => simp [bumpProject, addSession]
  | cons e t ih =>
    obtain ⟨k', v⟩ := e
    by_cases hk : k' = k
    · simp only [bumpProject, if_pos hk, List.map_cons, List.sum_cons, addSession]
      omega
    · simp only [bumpProject, if_neg hk, List.map_cons, List.sum_cons, ih]
      omega

/-- The aggregation loop's running totals and bucket sums, relative to an
arbitrary starting accumulator. -/
theorem aggregate_invariant (ss : List Session) : ∀ a : AggState,
    (ss.foldl aggStep a).totalMinutes
        = a.totalMinutes + ((ss.filter retainedB).map Session.durationMin).sum
    ∧ (ss.foldl aggStep a).totalSessions = a.totalSessions + (ss.filter retainedB).length
    ∧ (ss.foldl aggStep a).totalLines
        = a.totalLines + ((ss.filter retainedB).map Session.linesAdded).sum
    ∧ (ss.foldl aggStep a).totalFiles
        = a.totalFiles + ((ss.filter retainedB).map Session.filesChanged).sum
    ∧ (((ss.foldl aggStep a).byProject.map fun e => e.2.minutes).sum
        = (a.byProject.map fun e => e.2.minutes).sum
            + ((ss.filter retainedB).map Session.durationMin).sum)
    ∧ (((ss.foldl aggStep a).byProject.map fun e => e.2.sessions).sum
        = (a.byProject.map fun e => e.2.sessions).sum + (ss.filter retainedB).length)
    ∧ (((ss.foldl aggStep a).byProject.map fun e => e.2.linesAdded).sum
        = (a.byProject.map fun e => e.2.linesAdded).sum
            + ((ss.filter retainedB).map Session.linesAdded).sum)
    ∧ (((ss.foldl aggStep a).byProject.map fun e => e.2.files).sum
        = (a.byProject.map fun e => e.2.files).sum
            + ((ss.filter retainedB).map Session.filesChanged).sum) := by
  induction ss with
  | nil => intro a; simp
  | cons s t ih =>
    intro a
    by_cases hr : retainedB s
    · obtain ⟨i1, i2, i3, i4, i5, i6, i7, i8⟩ := ih (aggStep a s)
      have hb : (aggStep a s).byProject = bumpProject a.byProject (projKey s) s := by
        simp [aggStep, hr]
      simp only [List.foldl_cons, List.filter_cons, hr, if_pos, List.map_cons,
        List.sum_cons, List.length_cons]
      refine ⟨?_, ?_, ?_, ?_, ?_, ?_, ?_, ?_⟩
      · rw [i1]; simp [aggStep, hr]; omega
      · rw [i2]; simp [aggStep, hr]; omega
      · rw [i3]; simp [aggStep, hr]; omega
      · rw [i4]; simp [aggStep, hr]; omega
      · rw [i5, hb, bumpProject_minutes]; omega
      · rw [i6, hb, bumpProject_sessions]; omega
      · rw [i7, hb, bumpProject_linesAdded]; omega
      · rw [i8, hb, bumpProject_files]; omega
    · have ha : aggStep a s = a := by simp [aggStep, hr]
      obtain ⟨i1, i2, i3, i4, i5, i6, i7, i8⟩ := ih a
      simp only [List.foldl_cons, List.filter_cons, hr, ha]
      exact ⟨i1, i2, i3, i4, i5, i6, i7, i8⟩

/-- The number of sessions emitted by the line loop: one per header line,
plus the open session pushed at end of input. -/
theorem parseAux_length (lines : List (List Char)) :
    ∀ cur : Option Session,
      (parseAux cur lines).length = cur.toList.length + lines.countP isHeader := by
  induction lines with
  | nil => intro cur; simp [parseAux]
  | cons raw rest ih =>
    intro cur
    cases hh : sessionHeader (jsTrim raw) with
    | some d =>
      cases cur with
      | some s =>
        simp [parseAux, hh, ih, List.countP_cons, isHeader]
        omega
      | none =>
        simp [parseAux, hh, ih, List.countP_cons, isHeader]
        omega
    | none =>
      cases cur with
      | some s =>
        simp [parseAux, hh, ih, List.countP_cons, isHeader]
      | none =>
        simp [parseAux, hh, ih, List.countP_cons, isHeader]

/-- C1: for every input text, the parser returns exactly one `Session`
record per line whose trimmed form matches the session-header pattern:
each header starts a new record, pushing the open one, and the open
record is pushed at end of input. -/
theorem parseProofLog_length_eq_header_count (content : String) :
    (parseProofLog content).length
      = ((content.splitOn "\n").map String.toList).countP isHeader := by
  simpa [parseProofLog, parseLines] using
    parseAux_length ((content.splitOn "\n").map String.toList) none

/-- C8: `fmtHours` renders `{M div 60}h {M mod 60}m` when at least one
full hour is present, and `{M}m` otherwise. -/
theorem fmtHours_div_mod (M : Nat) :
    fmtHours M
      = if 0 < M / 60
        then Nat.toDigits 10 (M / 60) ++ 'h' :: ' ' :: Nat.toDigits 10 (M % 60) ++ ['m']
        else Nat.toDigits 10 M ++ ['m'] := by
  unfold fmtHours
  by_cases h : 0 < M / 60
  · simp [h]
  · have h0 : M / 60 = 0 := by omega
    have hm : M % 60 = M := by omega
    simp [h, h0, hm]

/-- C5: the tweet formatter never returns more than 280 characters, and
whenever the joined parts exceed 280 characters the output is exactly
the first 277 characters followed by `...`, of length exactly 280. -/
theorem formatTweet_length_le (r : Report) :
    (formatTweet r).length ≤ 280
      ∧ (280 < (joinedTweet r).length →
          formatTweet r = (joinedTweet r).take 277 ++ str "..."
            ∧ (formatTweet r).length = 280) := by
  unfold formatTweet
  by_cases h : (joinedTweet r).length > 280
  · have h3 : ("...".toList).length = 3 := rfl
    refine ⟨?_, fun _ => ⟨by simp [h], ?_⟩⟩
    · simp only [if_pos h, List.length_append, List.length_take, str]
      omega
    · simp only [if_pos h, List.length_append, List.length_take, str]
      omega
  · refine ⟨?_, fun hc => absurd hc h⟩
    simp only [if_neg h]
    omega

set_option maxRecDepth 100000 in
/-- Witness for C5: a concrete report whose joined tweet exceeds 280
characters and is truncated to exactly 280. -/
theorem formatTweet_length_le_witness :
    280 < (joinedTweet longTweetReport).length
      ∧ formatTweet longTweetReport
          = (joinedTweet longTweetReport).take 277 ++ str "..."
      ∧ (formatTweet longTweetReport).length = 280 := by
  refine ⟨by decide, ?_⟩
  have h := (formatTweet_length_le longTweetReport).2 (by decide)
  exact ⟨h.1, h.2⟩

/-- Lists with distinct known heads cannot be equal. -/
theorem head?_ne_imp_ne {α : Type} {l₁ l₂ : List α} (h : l₁ = l₂) {a b : α}
    (h₁ : l₁.head? = some a) (h₂ : l₂.head? = some b) (hab : a ≠ b) : False := by
  rw [h, h₂] at h₁
  exact hab (Option.some.inj h₁).symm

/-- The plain ghost notice appears in the plain output exactly when the
ghost branch was taken. -/
theorem ghostPlainLine_mem_iff (r : Report) :
    ghostPlainLine ∈ formatPlainLines r
      ↔ (r.isGhostDay || r.agg.totalSessions == 0) = true := by
  by_cases hg : (r.isGhostDay || r.agg.totalSessions == 0) = true
  · simp [formatPlainLines, plainHeadLines, hg]
  · simp only [hg, Bool.false_eq_true, iff_false]
    intro hmem
    have hH : plainHeadLines r
        = [str "📋 AI Standup — " ++ label r, []]
          ++ ([str "✅ Yesterday's work:"] ++ (sortedProjects r).map plainBullet
              ++ [[], plainTotalLine r.agg, []]) := by
      unfold plainHeadLines
      rw [if_neg hg]
    rw [formatPlainLines, hH] at hmem
    rcases List.mem_append.mp hmem with hA | hB
    · rcases List.mem_append.mp hA with hH1 | hIf
      · rcases List.mem_append.mp hH1 with hT | hX
        · rcases List.mem_cons.mp hT with h | hT2
          · exact head?_ne_imp_ne h rfl rfl (by decide)
          rcases List.mem_cons.mp hT2 with h | hT3
          · exact (by decide : ghostPlainLine ≠ ([] : List Char)) h
          · exact (List.not_mem_nil _) hT3
        · rcases List.mem_append.mp hX with hX1 | hX2
          · rcases List.mem_append.mp hX1 with hW | hM
            · rcases List.mem_cons.mp hW with h | hW2
              · exact head?_ne_imp_ne h rfl rfl (by decide)
              · exact (List.not_mem_nil _) hW2
            · obtain ⟨e, _, heq⟩ := List.mem_map.mp hM
              exact head?_ne_imp_ne heq.symm rfl rfl (by decide)
          · rcases List.mem_cons.mp hX2 with h | hX3
            · exact (by decide : ghostPlainLine ≠ ([] : List Char)) h
            rcases List.mem_cons.mp hX3 with h | hX4
            · exact head?_ne_imp_ne h rfl rfl (by decide)
            rcases List.mem_cons.mp hX4 with h | hX5
            · exact (by decide : ghostPlainLine ≠ ([] : List Char)) h
            · exact (List.not_mem_nil _) hX5
      · by_cases hs : (sortedProjects r).length > 0
        · rw [if_pos hs] at hIf
          rcases List.mem_cons.mp hIf with h | hIf2
          · exact head?_ne_imp_ne h rfl rfl (by decide)
          rcases List.mem_cons.mp hIf2 with h | hIf3
          · exact (by decide : ghostPlainLine ≠ ([] : List Char)) h
          · exact (List.not_mem_nil _) hIf3
        · rw [if_neg hs] at hIf
          exact (List.not_mem_nil _) hIf
    · rcases List.mem_cons.mp hB with h | hB2
      · exact head?_ne_imp_ne h rfl rfl (by decide)
      · exact (List.not_mem_nil _) hB2

/-- The slack ghost notice appears in the slack output exactly when the
ghost branch was taken. -/
theorem ghostSlackLine_mem_iff (r : Report) :
    ghostSlackLine ∈ formatSlackLines r
      ↔ (r.isGhostDay || r.agg.totalSessions == 0) = true := by
  by_cases hg : (r.isGhostDay || r.agg.totalSessions == 0) = true
  · simp [formatSlackLines, hg]
  · simp only [hg, Bool.false_eq_true, iff_false]
    intro hmem
    have hS : formatSlackLines r
        = [str "*AI Standup — " ++ label r ++ str "*", []]
          ++ ([str "✅ *Yesterday's work:*"] ++ (sortedProjects r).map slackBullet
              ++ [[], slackTotalLine r.agg]
              ++ (if (sortedProjects r).length > 0
                  then [slackContinuingLine (sortedProjects r)] else [])) := by
      simp only [formatSlackLines]
      rw [if_neg hg]
    rw [hS] at hmem
    rcases List.mem_append.mp hmem with hT | hE
    · rcases List.mem_cons.mp hT with h | hT2
      · exact head?_ne_imp_ne h rfl rfl (by decide)
      rcases List.mem_cons.mp hT2 with h | hT3
      · exact (by decide : ghostSlackLine ≠ ([] : List Char)) h
      · exact (List.not_mem_nil _) hT3
    · rcases List.mem_append.mp hE with hE1 | hIfc
      · rcases List.mem_append.mp hE1 with hWM | hTot
        · rcases List.mem_append.mp hWM with hW | hM
          · rcases List.mem_cons.mp hW with h | hW2
            · exact head?_ne_imp_ne h rfl rfl (by decide)
            · exact (List.not_mem_nil _) hW2
          · obtain ⟨e, _, heq⟩ := List.mem_map.mp hM
            exact head?_ne_imp_ne heq.symm rfl rfl (by decide)
        · rcases List.mem_cons.mp hTot with h | hTot2
          · exact (by decide : ghostSlackLine ≠ ([] : List Char)) h
          rcases List.mem_cons.mp hTot2 with h | hTot3
          · exact head?_ne_imp_ne h rfl rfl (by decide)
          · exact (List.not_mem_nil _) hTot3
      · by_cases hs : (sortedProjects r).length > 0
        · rw [if_pos hs] at hIfc
          rcases List.mem_cons.mp hIfc with h | hIfc2
          · exact head?_ne_imp_ne h rfl rfl (by decide)
          · exact (List.not_mem_nil _) hIfc2
        · rw [if_neg hs] at hIfc
          exact (List.not_mem_nil _) hIfc

/-- The tweet parts equal the fixed ghost parts exactly when the ghost
branch was taken: the non-ghost branch always builds at least four
parts, the ghost branch exactly three. -/
theorem tweetParts_ghost_iff (r : Report) :
    tweetParts r = ghostTweetParts r.targetDate
      ↔ (r.isGhostDay || r.agg.totalSessions == 0) = true := by
  by_cases hg : (r.isGhostDay || r.agg.totalSessions == 0) = true
  · simp [tweetParts, hg]
  · simp only [hg, Bool.false_eq_true, iff_false]
    intro heq
    have hT : tweetParts r
        = (str "AI Standup " ++ r.targetDate.drop 5 ++ str " 🤖")
            :: ((sortedProjects r).take 3).map tweetProjLine
            ++ [[],
                str "Total: " ++ fmtHours r.agg.totalMinutes ++ str " | "
                  ++ Nat.toDigits 10 r.agg.totalSessions ++ str " sessions",
                str "#claudecode #aidev"] := by
      simp only [tweetParts]
      rw [if_neg hg]
    have hlen := congrArg List.length heq
    rw [hT] at hlen
    simp only [ghostTweetParts, List.length_cons, List.length_append,
      List.length_map, List.length_take, List.length_nil] at hlen
    omega

/-- C4: the report renders as a ghost day in every output format exactly
when the retained-session count is zero; a missing or unreadable file
yields zero retained sessions (hence a ghost report, not an error), and
for a readable file the count is the number of retained parsed
sessions. -/
theorem ghost_day_iff_no_retained (td dow : List Char) (fs : FileState) :
    ((ghostPlainLine ∈ formatPlainLines (buildReport td dow fs))
        ↔ (buildReport td dow fs).agg.totalSessions = 0)
    ∧ ((ghostSlackLine ∈ formatSlackLines (buildReport td dow fs))
        ↔ (buildReport td dow fs).agg.totalSessions = 0)
    ∧ ((tweetParts (buildReport td dow fs) = ghostTweetParts td)
        ↔ (buildReport td dow fs).agg.totalSessions = 0)
    ∧ (buildReport td dow FileState.missing).agg.totalSessions = 0
    ∧ (buildReport td dow FileState.unreadable).agg.totalSessions = 0
    ∧ (∀ c, (buildReport td dow (FileState.readable c)).agg.totalSessions
          = ((parseProofLog c).filter retainedB).length) := by
  have hcond : ((buildReport td dow fs).isGhostDay
        || (buildReport td dow fs).agg.totalSessions == 0) = true
      ↔ (buildReport td dow fs).agg.totalSessions = 0 := by
    cases fs with
    | missing =>
      simp [buildReport, isGhostDayOf, runAggregate, sessionsOf, aggregateSessions,
        emptyAgg]
    | unreadable =>
      simp [buildReport, isGhostDayOf, runAggregate, sessionsOf, aggregateSessions,
        emptyAgg]
    | readable c =>
      simp [buildReport, isGhostDayOf, beq_iff_eq]
  refine ⟨(ghostPlainLine_mem_iff _).trans hcond,
          (ghostSlackLine_mem_iff _).trans hcond,
          (tweetParts_ghost_iff _).trans hcond,
          rfl, rfl, fun c => ?_⟩
  have hi := (aggregate_invariant (parseProofLog c) emptyAgg).2.1
  simp only [buildReport, runAggregate, sessionsOf, aggregateSessions, emptyAgg] at hi ⊢
  omega

/-- C9: whenever at least one project aggregate exists, the plain output
is the head lines followed by the continuing line (listing the project
names in sorted order), a blank, and the fixed footer; and the footer is
the last line of every plain report. -/
theorem plain_continuing_and_footer (r : Report) :
    ((sortedProjects r) ≠ [] →
      formatPlainLines r
        = plainHeadLines r ++ [continuingLine (sortedProjects r), [], footerLine])
    ∧ (formatPlainLines r).getLast? = some footerLine := by
  constructor
  · intro hne
    have hs : (sortedProjects r).length > 0 := List.length_pos.mpr hne
    unfold formatPlainLines
    rw [if_pos hs]
    simp [List.append_assoc]
  · unfold formatPlainLines
    rw [List.append_assoc]
    rw [List.getLast?_append_of_ne_nil _ (by simp)]
    rw [List.getLast?_append_of_ne_nil _ (by simp)]
    rfl

/-- Witness for C9: the one-project report takes the continuing branch. -/
theorem plain_continuing_and_footer_witness :
    sortedProjects oneProjectReport ≠ []
    ∧ formatPlainLines oneProjectReport
        = plainHeadLines oneProjectReport
          ++ [continuingLine (sortedProjects oneProjectReport), [], footerLine] :=
  ⟨by decide, (plain_continuing_and_footer oneProjectReport).1 (by decide)⟩

/-- With no open session, non-header lines are skipped without effect. -/
theorem parseAux_skip (junk : List (List Char)) (rest : List (List Char))
    (h : ∀ l ∈ junk, isHeader l = false) :
    parseAux none (junk ++ rest) = parseAux none rest := by
  induction junk with
  | nil => rfl
  | cons j t ih =>
    have hj : sessionHeader (jsTrim j) = none := by
      have hf := h j (List.mem_cons_self j t)
      unfold isHeader at hf
      cases hs : sessionHeader (jsTrim j) with
      | none => rfl
      | some d => rw [hs] at hf; cases hf
    simp only [List.cons_append, parseAux, hj]
    exact ih (fun l hl => h l (List.mem_cons_of_mem _ hl))

/-- With an open session, a headerless body folds into the open session
via the field-matcher chain. -/
theorem parseAux_block (body : List (List Char)) : ∀ (s : Session) (rest : List (List Char)),
    (∀ l ∈ body, isHeader l = false) →
      parseAux (some s) (body ++ rest) = parseAux (some (applyFields s body)) rest := by
  induction body with
  | nil => intro s rest _; simp [applyFields]
  | cons b t ih =>
    intro s rest h
    have hb : sessionHeader (jsTrim b) = none := by
      have hf := h b (List.mem_cons_self b t)
      unfold isHeader at hf
      cases hs : sessionHeader (jsTrim b) with
      | none => rfl
      | some d => rw [hs] at hf; cases hf
    simp only [List.cons_append, parseAux, hb, List.append_eq]
    rw [ih (fieldStep s (jsTrim b)) rest (fun l hl => h l (List.mem_cons_of_mem _ hl))]
    rfl

/-- A line with no duration match leaves the duration unchanged. -/
theorem fieldStep_durationMin_of_none (s : Session) (line : List Char)
    (h : durationLine line = none) : (fieldStep s line).durationMin = s.durationMin := by
  unfold fieldStep
  rw [h]
  cases whereLine line with
  | some p => rfl
  | none =>
  cases whoLine line with
  | some n => rfl
  | none =>
  cases hwt : whatLine line with
  | some t => obtain ⟨f, a, rm⟩ := t; rfl
  | none => rfl

/-- A line with no where match leaves the project unchanged. -/
theorem fieldStep_project_of_none (s : Session) (line : List Char)
    (h : whereLine line = none) : (fieldStep s line).project = s.project := by
  unfold fieldStep
  cases durationLine line with
  | some n => rfl
  | none =>
  rw [h]
  cases whoLine line with
  | some n => rfl
  | none =>
  cases hwt : whatLine line with
  | some t => obtain ⟨f, a, rm⟩ := t; rfl
  | none => rfl

/-- A line with no who match leaves the action count unchanged. -/
theorem fieldStep_ccActions_of_none (s : Session) (line : List Char)
    (h : whoLine line = none) : (fieldStep s line).ccActions = s.ccActions := by
  unfold fieldStep
  cases durationLine line with
  | some n => rfl
  | none =>
  cases whereLine line with
  | some p => rfl
  | none =>
  rw [h]
  cases hwt : whatLine line with
  | some t => obtain ⟨f, a, rm⟩ := t; rfl
  | none => rfl

/-- A line with no what match leaves files/lines unchanged. -/
theorem fieldStep_what_of_none (s : Session) (line : List Char)
    (h : whatLine line = none) :
    (fieldStep s line).filesChanged = s.filesChanged
    ∧ (fieldStep s line).linesAdded = s.linesAdded
    ∧ (fieldStep s line).linesRemoved = s.linesRemoved := by
  unfold fieldStep
  cases durationLine line with
  | some n => exact ⟨rfl, rfl, rfl⟩
  | none =>
  cases whereLine line with
  | some p => exact ⟨rfl, rfl, rfl⟩
  | none =>
  cases whoLine line with
  | some n => exact ⟨rfl, rfl, rfl⟩
  | none =>
  rw [h]
  exact ⟨rfl, rfl, rfl⟩

/-- Duration stays at its start value over a body with no duration line. -/
theorem applyFields_durationMin (body : List (List Char)) : ∀ s : Session,
    (∀ l ∈ body, durationLine (jsTrim l) = none) →
      (applyFields s body).durationMin = s.durationMin := by
  induction body with
  | nil => intro s _; rfl
  | cons b t ih =>
    intro s h
    have hstep := fieldStep_durationMin_of_none s (jsTrim b) (h b (List.mem_cons_self b t))
    have := ih (fieldStep s (jsTrim b)) (fun l hl => h l (List.mem_cons_of_mem _ hl))
    unfold applyFields at this ⊢
    simp only [List.foldl_cons]
    rw [this, hstep]

/-- Project stays at its start value over a body with no where line. -/
theorem applyFields_project (body : List (List Char)) : ∀ s : Session,
    (∀ l ∈ body, whereLine (jsTrim l) = none) →
      (applyFields s body).project = s.project := by
  induction body with
  | nil => intro s _; rfl
  | cons b t ih =>
    intro s h
    have hstep := fieldStep_project_of_none s (jsTrim b) (h b (List.mem_cons_self b t))
    have := ih (fieldStep s (jsTrim b)) (fun l hl => h l (List.mem_cons_of_mem _ hl))
    unfold applyFields at this ⊢
    simp only [List.foldl_cons]
    rw [this, hstep]

/-- Action count stays at its start value over a body with no who line. -/
theorem applyFields_ccActions (body : List (List Char)) : ∀ s : Session,
    (∀ l ∈ body, whoLine (jsTrim l) = none) →
      (applyFields s body).ccActions = s.ccActions := by
  induction body with
  | nil => intro s _; rfl
  | cons b t ih =>
    intro s h
    have hstep := fieldStep_ccActions_of_none s (jsTrim b) (h b (List.mem_cons_self b t))
    have := ih (fieldStep s (jsTrim b)) (fun l hl => h l (List.mem_cons_of_mem _ hl))
    unfold applyFields at this ⊢
    simp only [List.foldl_cons]
    rw [this, hstep]

/-- Files/lines stay at their start values over a body with no what
line. -/
theorem applyFields_what (body : List (List Char)) : ∀ s : Session,
    (∀ l ∈ body, whatLine (jsTrim l) = none) →
      (applyFields s body).filesChanged = s.filesChanged
      ∧ (applyFields s body).linesAdded = s.linesAdded
      ∧ (applyFields s body).linesRemoved = s.linesRemoved := by
  induction body with
  | nil => intro s _; exact ⟨rfl, rfl, rfl⟩
  | cons b t ih =>
    intro s h
    have hstep := fieldStep_what_of_none s (jsTrim b) (h b (List.mem_cons_self b t))
    have hrest := ih (fieldStep s (jsTrim b)) (fun l hl => h l (List.mem_cons_of_mem _ hl))
    unfold applyFields at hrest ⊢
    simp only [List.foldl_cons]
    exact ⟨hrest.1.trans hstep.1, hrest.2.1.trans hstep.2.1, hrest.2.2.trans hstep.2.2⟩

/-- C6: in a single-block input, the parser emits exactly the session
obtained by folding the body over the fresh all-zero record; each
numeric field stays zero and the project stays absent unless some body
line matches the corresponding pattern, and a header with no field lines
yields the untouched fresh session. -/
theorem session_block_field_defaults (d : List Char) (junk : List (List Char))
    (hl : List Char) (body : List (List Char))
    (hjunk : ∀ l ∈ junk, isHeader l = false)
    (hhdr : sessionHeader (jsTrim hl) = some d)
    (hbody : ∀ l ∈ body, isHeader l = false) :
    parseLines (junk ++ hl :: body) = [applyFields (newSession d) body]
    ∧ ((∀ l ∈ body, durationLine (jsTrim l) = none)
        → (applyFields (newSession d) body).durationMin = 0)
    ∧ ((∀ l ∈ body, whereLine (jsTrim l) = none)
        → (applyFields (newSession d) body).project = none)
    ∧ ((∀ l ∈ body, whoLine (jsTrim l) = none)
        → (applyFields (newSession d) body).ccActions = 0)
    ∧ ((∀ l ∈ body, whatLine (jsTrim l) = none)
        → (applyFields (newSession d) body).filesChanged = 0
          ∧ (applyFields (newSession d) body).linesAdded = 0
          ∧ (applyFields (newSession d) body).linesRemoved = 0)
    ∧ applyFields (newSession d) ([] : List (List Char)) = newSession d := by
  refine ⟨?_, ?_, ?_, ?_, ?_, rfl⟩
  · unfold parseLines
    rw [parseAux_skip junk (hl :: body) hjunk]
    have hstep : parseAux none (hl :: body) = parseAux (some (newSession d)) body := by
      simp only [parseAux, hhdr]
    rw [hstep]
    have hbody' : parseAux (some (newSession d)) (body ++ [])
        = parseAux (some (applyFields (newSession d) body)) [] :=
      parseAux_block body (newSession d) [] hbody
    rw [List.append_nil] at hbody'
    rw [hbody']
    rfl
  · exact fun h => applyFields_durationMin body (newSession d) h
  · exact fun h => applyFields_project body (newSession d) h
  · exact fun h => applyFields_ccActions body (newSession d) h
  · exact fun h => applyFields_what body (newSession d) h

/-- Witness for C6: an ignored intro line, a header and a lone who line
give one session with default duration and absent project. -/
theorem session_block_field_defaults_witness :
    parseLines ([str "intro"] ++ str "### 2026-02-27 09:00-10:30 JST" :: [str "- 誰が: CC: 7件"])
        = [applyFields (newSession (str "2026-02-27")) [str "- 誰が: CC: 7件"]]
    ∧ (applyFields (newSession (str "2026-02-27")) [str "- 誰が: CC: 7件"]).durationMin = 0
    ∧ (applyFields (newSession (str "2026-02-27")) [str "- 誰が: CC: 7件"]).project = none := by
  have h := session_block_field_defaults (str "2026-02-27") [str "intro"]
    (str "### 2026-02-27 09:00-10:30 JST") [str "- 誰が: CC: 7件"]
    (by decide) (by decide) (by decide)
  exact ⟨h.1, h.2.1 (by decide), h.2.2.1 (by decide)⟩

/-- A line matching none of the five patterns leaves the field state
untouched. -/
theorem fieldStep_of_unrecognized {j : List Char} (s : Session) (h : unrecognized j) :
    fieldStep s (jsTrim j) = s := by
  unfold fieldStep
  rw [h.2.1, h.2.2.1, h.2.2.2.1, h.2.2.2.2]

/-- An unrecognized line is skipped from any loop state. -/
theorem parseAux_skip_one {j : List Char} (ys : List (List Char))
    (cur : Option Session) (h : unrecognized j) :
    parseAux cur (j :: ys) = parseAux cur ys := by
  cases cur with
  | none => simp only [parseAux, h.1]
  | some s =>
    simp only [parseAux, h.1]
    rw [fieldStep_of_unrecognized s h]

/-- An unrecognized line can be deleted anywhere without changing the
parse. -/
theorem parseAux_delete {j : List Char} (h : unrecognized j) (ys : List (List Char)) :
    ∀ (xs : List (List Char)) (cur : Option Session),
      parseAux cur (xs ++ j :: ys) = parseAux cur (xs ++ ys) := by
  intro xs
  induction xs with
  | nil => exact fun cur => parseAux_skip_one ys cur h
  | cons x t ih =>
    intro cur
    cases hx : sessionHeader (jsTrim x) with
    | some d =>
      cases cur with
      | some s =>
        simp only [List.cons_append, parseAux, hx, List.append_eq]
        rw [ih (some (newSession d))]
      | none =>
        simp only [List.cons_append, parseAux, hx, List.append_eq]
        rw [ih (some (newSession d))]
    | none =>
      cases cur with
      | some s =>
        simp only [List.cons_append, parseAux, hx, List.append_eq]
        rw [ih (some (fieldStep s (jsTrim x)))]
      | none =>
        simp only [List.cons_append, parseAux, hx, List.append_eq]
        rw [ih none]

/-- C7: lines before the first header are ignored whatever they contain
short of a header, and a line matching no recognized pattern (for
instance a malformed field line) is skipped anywhere without aborting
the parse: the remaining lines still produce the same sessions and the
affected field keeps its prior or default value. -/
theorem unrecognized_lines_ignored :
    (∀ junk rest : List (List Char), (∀ l ∈ junk, isHeader l = false)
        → parseLines (junk ++ rest) = parseLines rest)
    ∧ (∀ (xs : List (List Char)) (j : List Char) (ys : List (List Char)),
        unrecognized j → parseLines (xs ++ j :: ys) = parseLines (xs ++ ys)) :=
  ⟨fun junk rest h => parseAux_skip junk rest h,
   fun xs _ ys h => parseAux_delete h ys xs none⟩

/-- Witness for C7: pre-header noise (including a field line) is
dropped, and a malformed what line inside a block changes nothing. -/
theorem unrecognized_lines_ignored_witness :
    parseLines ([str "noise", str "- どこで: early"]
        ++ [str "### 2026-02-27 09:00-10:30 JST"])
      = parseLines [str "### 2026-02-27 09:00-10:30 JST"]
    ∧ parseLines ([str "### 2026-02-27 09:00-10:30 JST"]
        ++ str "- 何を: garbage" :: [str "- どこで: alpha"])
      = parseLines ([str "### 2026-02-27 09:00-10:30 JST"] ++ [str "- どこで: alpha"]) :=
  ⟨unrecognized_lines_ignored.1 _ _ (by decide),
   unrecognized_lines_ignored.2 _ _ _ (by decide)⟩

/-- A failed leading character rules out a literal match. -/
theorem dropLit_cons_of_ne {p c : Char} (ps cs : List Char) (h : ¬ c = p) :
    dropLit (p :: ps) (c :: cs) = none := by
  simp [dropLit, h]

/-- A matched leading character advances a literal match. -/
theorem dropLit_cons_of_eq {p c : Char} (ps cs : List Char) (h : c = p) :
    dropLit (p :: ps) (c :: cs) = dropLit ps cs := by
  simp [dropLit, h]

/-- Inversion for the duration matcher. -/
theorem durationLine_inv {cs : List Char} {n : Nat} (h : durationLine cs = some n) :
    ∃ r, cs = str "- いつ: " ++ r := by
  unfold durationLine at h
  cases hd : dropLit (str "- いつ: ") cs with
  | none => rw [hd] at h; simp at h
  | some r => exact ⟨r, dropLit_eq_append hd⟩

/-- Inversion for the who matcher. -/
theorem whoLine_inv {cs : List Char} {n : Nat} (h : whoLine cs = some n) :
    ∃ r, cs = str "- 誰が: CC: " ++ r := by
  unfold whoLine at h
  cases hd : dropLit (str "- 誰が: CC: ") cs with
  | none => rw [hd] at h; simp at h
  | some r => exact ⟨r, dropLit_eq_append hd⟩

/-- A duration line never matches the where pattern. -/
theorem whereLine_none_itsu (r : List Char) : whereLine (str "- いつ: " ++ r) = none := by
  have e2 : str "- いつ: " ++ r = '-' :: ' ' :: (str "いつ: " ++ r) := rfl
  have e1 : str "- どこで: " = '-' :: ' ' :: str "どこで: " := rfl
  have hd : dropLit (str "- どこで: ") (str "- いつ: " ++ r) = none := by
    rw [e1, e2]
    rw [dropLit_cons_of_eq _ _ rfl, dropLit_cons_of_eq _ _ rfl]
    exact dropLit_cons_of_ne _ _ (by decide)
  unfold whereLine
  rw [hd]
  rfl

/-- A duration line never matches the who pattern. -/
theorem whoLine_none_itsu (r : List Char) : whoLine (str "- いつ: " ++ r) = none := by
  have e2 : str "- いつ: " ++ r = '-' :: ' ' :: (str "いつ: " ++ r) := rfl
  have e1 : str "- 誰が: CC: " = '-' :: ' ' :: str "誰が: CC: " := rfl
  have hd : dropLit (str "- 誰が: CC: ") (str "- いつ: " ++ r) = none := by
    rw [e1, e2]
    rw [dropLit_cons_of_eq _ _ rfl, dropLit_cons_of_eq _ _ rfl]
    exact dropLit_cons_of_ne _ _ (by decide)
  unfold whoLine
  rw [hd]
  rfl

/-- A duration line never matches the what pattern. -/
theorem whatLine_none_itsu (r : List Char) : whatLine (str "- いつ: " ++ r) = none := by
  have e2 : str "- いつ: " ++ r = '-' :: ' ' :: (str "いつ: " ++ r) := rfl
  have e1 : str "- 何を: " = '-' :: ' ' :: str "何を: " := rfl
  have hd : dropLit (str "- 何を: ") (str "- いつ: " ++ r) = none := by
    rw [e1, e2]
    rw [dropLit_cons_of_eq _ _ rfl, dropLit_cons_of_eq _ _ rfl]
    exact dropLit_cons_of_ne _ _ (by decide)
  unfold whatLine
  rw [hd]
  rfl

/-- A where line never matches the who pattern. -/
theorem whoLine_none_dokode (r : List Char) : whoLine (str "- どこで: " ++ r) = none := by
  have e2 : str "- どこで: " ++ r = '-' :: ' ' :: (str "どこで: " ++ r) := rfl
  have e1 : str "- 誰が: CC: " = '-' :: ' ' :: str "誰が: CC: " := rfl
  have hd : dropLit (str "- 誰が: CC: ") (str "- どこで: " ++ r) = none := by
    rw [e1, e2]
    rw [dropLit_cons_of_eq _ _ rfl, dropLit_cons_of_eq _ _ rfl]
    exact dropLit_cons_of_ne _ _ (by decide)
  unfold whoLine
  rw [hd]
  rfl

/-- A where line never matches the what pattern. -/
theorem whatLine_none_dokode (r : List Char) : whatLine (str "- どこで: " ++ r) = none := by
  have e2 : str "- どこで: " ++ r = '-' :: ' ' :: (str "どこで: " ++ r) := rfl
  have e1 : str "- 何を: " = '-' :: ' ' :: str "何を: " := rfl
  have hd : dropLit (str "- 何を: ") (str "- どこで: " ++ r) = none := by
    rw [e1, e2]
    rw [dropLit_cons_of_eq _ _ rfl, dropLit_cons_of_eq _ _ rfl]
    exact dropLit_cons_of_ne _ _ (by decide)
  unfold whatLine
  rw [hd]
  rfl

/-- A who line never matches the what pattern. -/
theorem whatLine_none_darega (r : List Char) : whatLine (str "- 誰が: CC: " ++ r) = none := by
  have e2 : str "- 誰が: CC: " ++ r = '-' :: ' ' :: (str "誰が: CC: " ++ r) := rfl
  have e1 : str "- 何を: " = '-' :: ' ' :: str "何を: " := rfl
  have hd : dropLit (str "- 何を: ") (str "- 誰が: CC: " ++ r) = none := by
    rw [e1, e2]
    rw [dropLit_cons_of_eq _ _ rfl, dropLit_cons_of_eq _ _ rfl]
    exact dropLit_cons_of_ne _ _ (by decide)
  unfold whatLine
  rw [hd]
  rfl

/-- `Option.elim` of `getLast?` peels a cons by replacing the default. -/
theorem getLast?_cons_elim {α β : Type} :
    ∀ (l : List α) (a : α) (x : β) (f : α → β),
      ((a :: l).getLast?).elim x f = (l.getLast?).elim (f a) f := by
  intro l
  induction l with
  | nil => intro a x f; rfl
  | cons b t ih =>
    intro a x f
    rw [List.getLast?_cons_cons, ih b x f, ih b (f a) f]

/-- Folding a block body over a session yields, in every field, the
value of the last matching line of the body, or the start value when no
line matches: each successful match overwrites the stored field. -/
theorem applyFields_char (body : List (List Char)) : ∀ s : Session,
    (applyFields s body).durationMin
        = ((body.filterMap durOf).getLast?).elim s.durationMin id
    ∧ (applyFields s body).project
        = ((body.filterMap whereOf).getLast?).elim s.project (fun p => some (jsTrim p))
    ∧ (applyFields s body).ccActions
        = ((body.filterMap whoOf).getLast?).elim s.ccActions id
    ∧ (applyFields s body).filesChanged
        = ((body.filterMap whatOf).getLast?).elim s.filesChanged (fun t => t.1)
    ∧ (applyFields s body).linesAdded
        = ((body.filterMap whatOf).getLast?).elim s.linesAdded (fun t => t.2.1)
    ∧ (applyFields s body).linesRemoved
        = ((body.filterMap whatOf).getLast?).elim s.linesRemoved (fun t => t.2.2)
    ∧ (applyFields s body).date = s.date := by
  induction body with
  | nil => intro s; exact ⟨rfl, rfl, rfl, rfl, rfl, rfl, rfl⟩
  | cons b t ih =>
    intro s
    obtain ⟨i1, i2, i3, i4, i5, i6, i7⟩ := ih (fieldStep s (jsTrim b))
    have hstep : applyFields s (b :: t) = applyFields (fieldStep s (jsTrim b)) t := rfl
    rw [hstep]
    cases hdur : durationLine (jsTrim b) with
    | some n =>
      obtain ⟨r0, hr0⟩ := durationLine_inv hdur
      have hw : whereLine (jsTrim b) = none := by rw [hr0]; exact whereLine_none_itsu r0
      have hwho : whoLine (jsTrim b) = none := by rw [hr0]; exact whoLine_none_itsu r0
      have hwhat : whatLine (jsTrim b) = none := by rw [hr0]; exact whatLine_none_itsu r0
      have hfs : fieldStep s (jsTrim b) = { s with durationMin := n } := by
        unfold fieldStep; rw [hdur]
      have hdur' : durOf b = some n := hdur
      have hw' : whereOf b = none := hw
      have hwho' : whoOf b = none := hwho
      have hwhat' : whatOf b = none := hwhat
      have e1 : (b :: t).filterMap durOf = n :: t.filterMap durOf := by
        simp [List.filterMap_cons, hdur']
      have e2 : (b :: t).filterMap whereOf = t.filterMap whereOf := by
        simp [List.filterMap_cons, hw']
      have e3 : (b :: t).filterMap whoOf = t.filterMap whoOf := by
        simp [List.filterMap_cons, hwho']
      have e4 : (b :: t).filterMap whatOf = t.filterMap whatOf := by
        simp [List.filterMap_cons, hwhat']
      rw [e1, e2, e3, e4, getLast?_cons_elim]
      exact ⟨by rw [i1, hfs]; rfl, by rw [i2, hfs], by rw [i3, hfs], by rw [i4, hfs],
             by rw [i5, hfs], by rw [i6, hfs], by rw [i7, hfs]⟩
    | none =>
    cases hw : whereLine (jsTrim b) with
    | some p =>
      obtain ⟨hr0, -⟩ := whereLine_inv hw
      have hwho : whoLine (jsTrim b) = none := by rw [hr0]; exact whoLine_none_dokode p
      have hwhat : whatLine (jsTrim b) = none := by rw [hr0]; exact whatLine_none_dokode p
      have hfs : fieldStep s (jsTrim b) = { s with project := some (jsTrim p) } := by
        unfold fieldStep; rw [hdur, hw]
      have hdur' : durOf b = none := hdur
      have hw' : whereOf b = some p := hw
      have hwho' : whoOf b = none := hwho
      have hwhat' : whatOf b = none := hwhat
      have e1 : (b :: t).filterMap durOf = t.filterMap durOf := by
        simp [List.filterMap_cons, hdur']
      have e2 : (b :: t).filterMap whereOf = p :: t.filterMap whereOf := by
        simp [List.filterMap_cons, hw']
      have e3 : (b :: t).filterMap whoOf = t.filterMap whoOf := by
        simp [List.filterMap_cons, hwho']
      have e4 : (b :: t).filterMap whatOf = t.filterMap whatOf := by
        simp [List.filterMap_cons, hwhat']
      rw [e1, e2, e3, e4, getLast?_cons_elim]
      exact ⟨by rw [i1, hfs], by rw [i2, hfs], by rw [i3, hfs], by rw [i4, hfs],
             by rw [i5, hfs], by rw [i6, hfs], by rw [i7, hfs]⟩
    | none =>
    cases hwho : whoLine (jsTrim b) with
    | some n =>
      obtain ⟨r0, hr0⟩ := whoLine_inv hwho
      have hwhat : whatLine (jsTrim b) = none := by rw [hr0]; exact whatLine_none_darega r0
      have hfs : fieldStep s (jsTrim b) = { s with ccActions := n } := by
        unfold fieldStep; rw [hdur, hw, hwho]
      have hdur' : durOf b = none := hdur
      have hw' : whereOf b = none := hw
      have hwho' : whoOf b = some n := hwho
      have hwhat' : whatOf b = none := hwhat
      have e1 : (b :: t).filterMap durOf = t.filterMap durOf := by
        simp [List.filterMap_cons, hdur']
      have e2 : (b :: t).filterMap whereOf = t.filterMap whereOf := by
        simp [List.filterMap_cons, hw']
      have e3 : (b :: t).filterMap whoOf = n :: t.filterMap whoOf := by
        simp [List.filterMap_cons, hwho']
      have e4 : (b :: t).filterMap whatOf = t.filterMap whatOf := by
        simp [List.filterMap_cons, hwhat']
      rw [e1, e2, e3, e4, getLast?_cons_elim]
      exact ⟨by rw [i1, hfs], by rw [i2, hfs], by rw [i3, hfs]; rfl, by rw [i4, hfs],
             by rw [i5, hfs], by rw [i6, hfs], by rw [i7, hfs]⟩
    | none =>
    cases hwhat : whatLine (jsTrim b) with
    | some tr =>
      obtain ⟨f0, a0, rm0⟩ := tr
      have hfs : fieldStep s (jsTrim b)
          = { s with filesChanged := f0, linesAdded := a0, linesRemoved := rm0 } := by
        unfold fieldStep; rw [hdur, hw, hwho, hwhat]
      have hdur' : durOf b = none := hdur
      have hw' : whereOf b = none := hw
      have hwho' : whoOf b = none := hwho
      have hwhat' : whatOf b = some (f0, a0, rm0) := hwhat
      have e1 : (b :: t).filterMap durOf = t.filterMap durOf := by
        simp [List.filterMap_cons, hdur']
      have e2 : (b :: t).filterMap whereOf = t.filterMap whereOf := by
        simp [List.filterMap_cons, hw']
      have e3 : (b :: t).filterMap whoOf = t.filterMap whoOf := by
        simp [List.filterMap_cons, hwho']
      have e4 : (b :: t).filterMap whatOf = (f0, a0, rm0) :: t.filterMap whatOf := by
        simp [List.filterMap_cons, hwhat']
      rw [e1, e2, e3, e4, getLast?_cons_elim, getLast?_cons_elim, getLast?_cons_elim]
      exact ⟨by rw [i1, hfs], by rw [i2, hfs], by rw [i3, hfs], by rw [i4, hfs],
             by rw [i5, hfs], by rw [i6, hfs], by rw [i7, hfs]⟩
    | none =>
      have hfs : fieldStep s (jsTrim b) = s := by
        unfold fieldStep; rw [hdur, hw, hwho, hwhat]
      have hdur' : durOf b = none := hdur
      have hw' : whereOf b = none := hw
      have hwho' : whoOf b = none := hwho
      have hwhat' : whatOf b = none := hwhat
      have e1 : (b :: t).filterMap durOf = t.filterMap durOf := by
        simp [List.filterMap_cons, hdur']
      have e2 : (b :: t).filterMap whereOf = t.filterMap whereOf := by
        simp [List.filterMap_cons, hw']
      have e3 : (b :: t).filterMap whoOf = t.filterMap whoOf := by
        simp [List.filterMap_cons, hwho']
      have e4 : (b :: t).filterMap whatOf = t.filterMap whatOf := by
        simp [List.filterMap_cons, hwhat']
      rw [e1, e2, e3, e4]
      exact ⟨by rw [i1, hfs], by rw [i2, hfs], by rw [i3, hfs], by rw [i4, hfs],
             by rw [i5, hfs], by rw [i6, hfs], by rw [i7, hfs]⟩

/-- C10: within one session block, when several lines match the same
field pattern the emitted session carries the value of the last matching
line — each successful match overwrites the stored field — and the
parser emits for a single block exactly the session obtained by this
fold. -/
theorem field_last_match_wins (body : List (List Char)) (s : Session) :
    ((applyFields s body).durationMin
        = ((body.filterMap durOf).getLast?).elim s.durationMin id
      ∧ (applyFields s body).project
        = ((body.filterMap whereOf).getLast?).elim s.project (fun p => some (jsTrim p))
      ∧ (applyFields s body).ccActions
        = ((body.filterMap whoOf).getLast?).elim s.ccActions id
      ∧ (applyFields s body).filesChanged
        = ((body.filterMap whatOf).getLast?).elim s.filesChanged (fun t => t.1)
      ∧ (applyFields s body).linesAdded
        = ((body.filterMap whatOf).getLast?).elim s.linesAdded (fun t => t.2.1)
      ∧ (applyFields s body).linesRemoved
        = ((body.filterMap whatOf).getLast?).elim s.linesRemoved (fun t => t.2.2))
    ∧ (∀ (d : List Char) (junk : List (List Char)) (hl : List Char),
        (∀ l ∈ junk, isHeader l = false)
        → sessionHeader (jsTrim hl) = some d
        → (∀ l ∈ body, isHeader l = false)
        → parseLines (junk ++ hl :: body) = [applyFields (newSession d) body]) := by
  obtain ⟨c1, c2, c3, c4, c5, c6, _⟩ := applyFields_char body s
  refine ⟨⟨c1, c2, c3, c4, c5, c6⟩, fun d junk hl hjunk hhdr hbody => ?_⟩
  unfold parseLines
  rw [parseAux_skip junk (hl :: body) hjunk]
  have hstep : parseAux none (hl :: body) = parseAux (some (newSession d)) body := by
    simp only [parseAux, hhdr]
  rw [hstep]
  have hbody' : parseAux (some (newSession d)) (body ++ [])
      = parseAux (some (applyFields (newSession d) body)) [] :=
    parseAux_block body (newSession d) [] hbody
  rw [List.append_nil] at hbody'
  rw [hbody']
  rfl

/-- Witness for C10: two where lines and two duration lines in one block
leave the values of the second of each. -/
theorem field_last_match_wins_witness :
    parseLines [str "### 2026-02-27 09:00-10:30 JST", str "- どこで: first",
        str "- どこで: second", str "- いつ: x JST（10分）", str "- いつ: x JST（25分）"]
      = [applyFields (newSession (str "2026-02-27"))
          [str "- どこで: first", str "- どこで: second",
           str "- いつ: x JST（10分）", str "- いつ: x JST（25分）"]]
    ∧ (applyFields (newSession (str "2026-02-27"))
        [str "- どこで: first", str "- どこで: second",
         str "- いつ: x JST（10分）", str "- いつ: x JST（25分）"]).project
      = some (str "second")
    ∧ (applyFields (newSession (str "2026-02-27"))
        [str "- どこで: first", str "- どこで: second",
         str "- いつ: x JST（10分）", str "- いつ: x JST（25分）"]).durationMin = 25 := by
  have h := field_last_match_wins
    [str "- どこで: first", str "- どこで: second",
     str "- いつ: x JST（10分）", str "- いつ: x JST（25分）"]
    (newSession (str "2026-02-27"))
  refine ⟨?_, ?_, ?_⟩
  · exact h.2 (str "2026-02-27") [] (str "### 2026-02-27 09:00-10:30 JST")
      (by decide) (by decide) (by decide)
  · rw [h.1.2.1]; decide
  · rw [h.1.1]; decide

end CcStandup
